import Mathlib

/-!
Verification of the movie-embedding pipeline (`scripts/pipeline.py`).

The pipeline filters a movie dataset, derives an embedding-input text per
record, maintains an on-disk embedding cache keyed by a SHA-256 content
hash, calls an external embedding backend in batches for cache misses,
quantizes the reduced float matrix to bytes, and serializes two binary
output files.  This file gives a shallow embedding of those components
(byte strings as `List Nat`, floats as `ℚ`, the cache as an association
list mirroring a Python dict) and proves the specified properties.
-/

/-! ### UTF-8 byte model (Python `str.encode("utf-8")`) -/

/-- UTF-8 encoding of a single code point, as a list of byte values. -/
def utf8Bytes (c : Char) : List Nat :=
  let n := c.toNat
  if n < 128 then [n]
  else if n < 2048 then
    [192 + n / 64, 128 + n % 64]
  else if n < 65536 then
    [224 + n / 4096, 128 + n / 64 % 64, 128 + n % 64]
  else
    [240 + n / 262144, 128 + n / 4096 % 64, 128 + n / 64 % 64, 128 + n % 64]

/-- The UTF-8 bytes of a string, modelling `s.encode("utf-8")`. -/
def strBytes (s : String) : List Nat :=
  s.data.flatMap utf8Bytes

/-! ### SHA-256 (model of `hashlib.sha256(...).hexdigest()`),
words as `Nat` reduced mod `2 ^ 32` -/

/-- Truncate to a 32-bit word. -/
def w32 (n : Nat) : Nat := n % 4294967296

/-- 32-bit right rotation. -/
def rotr (x n : Nat) : Nat := w32 ((x >>> n) ||| (x <<< (32 - n)))

/-- Bitwise complement on 32-bit words. -/
def bnot32 (x : Nat) : Nat := x ^^^ 4294967295

def sigma0 (x : Nat) : Nat := rotr x 7 ^^^ rotr x 18 ^^^ (x >>> 3)

def sigma1 (x : Nat) : Nat := rotr x 17 ^^^ rotr x 19 ^^^ (x >>> 10)

def bigSigma0 (x : Nat) : Nat := rotr x 2 ^^^ rotr x 13 ^^^ rotr x 22

def bigSigma1 (x : Nat) : Nat := rotr x 6 ^^^ rotr x 11 ^^^ rotr x 25

def chFn (x y z : Nat) : Nat := (x &&& y) ^^^ (bnot32 x &&& z)

def majFn (x y z : Nat) : Nat := (x &&& y) ^^^ (x &&& z) ^^^ (y &&& z)

/-- The SHA-256 round constants. -/
def sha256K : List Nat :=
  [1116352408, 1899447441, 3049323471, 3921009573, 961987163, 1508970993,
   2453635748, 2870763221, 3624381080, 310598401, 607225278, 1426881987,
   1925078388, 2162078206, 2614888103, 3248222580, 3835390401, 4022224774,
   264347078, 604807628, 770255983, 1249150122, 1555081692, 1996064986,
   2554220882, 2821834349, 2952996808, 3210313671, 3336571891, 3584528711,
   113926993, 338241895, 666307205, 773529912, 1294757372, 1396182291,
   1695183700, 1986661051, 2177026350, 2456956037, 2730485921, 2820302411,
   3259730800, 3345764771, 3516065817, 3600352804, 4094571909, 275423344,
   430227734, 506948616, 659060556, 883997877, 958139571, 1322822218,
   1537002063, 1747873779, 1955562222, 2024104815, 2227730452, 2361852424,
   2428436474, 2756734187, 3204031479, 3329325298]

/-- Running hash state: eight 32-bit words. -/
structure Hash8 where
  a : Nat
  b : Nat
  c : Nat
  d : Nat
  e : Nat
  f : Nat
  g : Nat
  h : Nat
deriving DecidableEq

/-- SHA-256 initial hash value. -/
def sha256Init : Hash8 :=
  ⟨1779033703, 3144134277, 1013904242, 2773480762,
   1359893119, 2600822924, 528734635, 1541459225⟩

/-- Group bytes into big-endian 32-bit words. -/
def bytesToWords : List Nat → List Nat
  | b0 :: b1 :: b2 :: b3 :: rest =>
      (((b0 * 256 + b1) * 256 + b2) * 256 + b3) :: bytesToWords rest
  | _ => []

/-- Extend a message schedule by one word. -/
def scheduleStep (w : List Nat) : List Nat :=
  let n := w.length
  w ++ [w32 (w.getD (n - 16) 0 + sigma0 (w.getD (n - 15) 0) +
             w.getD (n - 7) 0 + sigma1 (w.getD (n - 2) 0))]

/-- The 64-word message schedule of one block. -/
def schedule (w : List Nat) : List Nat :=
  (List.range 48).foldl (fun acc _ => scheduleStep acc) w

/-- One SHA-256 compression round. -/
def compressRound (s : Hash8) (wk : Nat × Nat) : Hash8 :=
  let t1 := w32 (s.h + bigSigma1 s.e + chFn s.e s.f s.g + wk.2 + wk.1)
  let t2 := w32 (bigSigma0 s.a + majFn s.a s.b s.c)
  ⟨w32 (t1 + t2), s.a, s.b, s.c, w32 (s.d + t1), s.e, s.f, s.g⟩

/-- Compress one 64-byte block into the running state. -/
def compressBlock (s : Hash8) (block : List Nat) : Hash8 :=
  let w := schedule (bytesToWords block)
  let t := (w.zip sha256K).foldl compressRound s
  ⟨w32 (s.a + t.a), w32 (s.b + t.b), w32 (s.c + t.c), w32 (s.d + t.d),
   w32 (s.e + t.e), w32 (s.f + t.f), w32 (s.g + t.g), w32 (s.h + t.h)⟩

/-- Split a list into chunks of `n` elements (fuelled structural recursion;
`fuel ≥ l.length` makes it total on the input). -/
def chunkList (n : Nat) : Nat → List α → List (List α)
  | 0, _ => []
  | _, [] => []
  | fuel + 1, l@(_ :: _) => l.take n :: chunkList n fuel (l.drop n)

/-- The message length in bits, as 8 big-endian bytes. -/
def lenBytesBE (n : Nat) : List Nat :=
  [n / 72057594037927936 % 256, n / 281474976710656 % 256,
   n / 1099511627776 % 256, n / 4294967296 % 256,
   n / 16777216 % 256, n / 65536 % 256, n / 256 % 256, n % 256]

/-- SHA-256 message padding: `0x80`, zeros to 56 mod 64, then the bit length. -/
def padMessage (msg : List Nat) : List Nat :=
  let zeros := (64 - (msg.length + 9) % 64) % 64
  msg ++ [128] ++ List.replicate zeros 0 ++ lenBytesBE (msg.length * 8)

/-- SHA-256 over a byte list. -/
def sha256 (msg : List Nat) : Hash8 :=
  let padded := padMessage msg
  (chunkList 64 padded.length padded).foldl compressBlock sha256Init

/-- One 32-bit word as 4 big-endian bytes. -/
def wordBE (w : Nat) : List Nat :=
  [w / 16777216 % 256, w / 65536 % 256, w / 256 % 256, w % 256]

/-- The 32 digest bytes of a final hash state. -/
def digestBytes (s : Hash8) : List Nat :=
  wordBE s.a ++ wordBE s.b ++ wordBE s.c ++ wordBE s.d ++
  wordBE s.e ++ wordBE s.f ++ wordBE s.g ++ wordBE s.h

/-- Lower-case hex character of a value below 16. -/
def hexChar (n : Nat) : Char :=
  if n < 10 then Char.ofNat (48 + n) else Char.ofNat (87 + n)

/-- Two hex characters of one byte. -/
def byteHex (b : Nat) : List Char :=
  [hexChar (b / 16), hexChar (b % 16)]

/-- Hex digest string of a hash state (`hexdigest()`). -/
def hexDigest (s : Hash8) : String :=
  String.mk ((digestBytes s).flatMap byteHex)

/-- `hash_text` from the pipeline: SHA-256 hex digest of
`f"{cache_scope}\n{text}"` encoded as UTF-8. -/
def hash_text (text cache_scope : String) : String :=
  hexDigest (sha256 (strBytes (cache_scope ++ "\n" ++ text)))

/-! ### Data model: filtered movie records and the embedding cache -/

/-- An embedding vector (Python list / numpy row of floats, modelled as ℚ). -/
abbrev Vec := List ℚ

/-- A filtered movie record, the dict built by `filter_movies`. -/
structure Movie where
  tmdb_id : Nat
  title : String
  poster_path : String
  text : String
  cache_hash : String
  imdb_num : Nat
  rating_x10 : Nat
deriving DecidableEq

/-- The in-memory embedding cache: a Python dict
`tmdb_id -> (cache key, vector)`, modelled as an association list. -/
abbrev Cache := List (Nat × (String × Vec))

/-- Dict lookup, `cache.get(id)`. -/
def dictGet : Cache → Nat → Option (String × Vec)
  | [], _ => none
  | (k, v) :: rest, id0 => if k = id0 then some v else dictGet rest id0

/-- Dict update, `cache[id] = v`: replace in place or append. -/
def dictSet : Cache → Nat → (String × Vec) → Cache
  | [], k, v => [(k, v)]
  | (k', v') :: rest, k, v =>
      if k' = k then (k, v) :: rest else (k', v') :: dictSet rest k v

/-- Python `str.isdigit()` restricted to ASCII digit strings. -/
def pyIsDigit (s : String) : Bool :=
  !s.data.isEmpty && s.data.all Char.isDigit

/-- `int(s)` on a digit string. -/
def strToNat (s : String) : Nat :=
  s.data.foldl (fun acc c => acc * 10 + (c.toNat - 48)) 0

/-! ### Cache store: the persisted `.npz` container, load and save -/

/-- The persisted cache container: the optional `__scope` array, the
optional triple of `__ids`/`__hashes`/`__embeddings` parallel arrays
(present only when all three keys exist), and any remaining named arrays
(the legacy format keyed by tmdb id). -/
structure CacheFile where
  scopeArr : Option (List String)
  newArrays : Option (List Nat × List String × List Vec)
  legacy : List (String × Vec)
deriving DecidableEq

/-- The scope tag read by `load_embedding_cache`: first element of a
non-empty `__scope` array, else the empty string. -/
def stored_scope (f : CacheFile) : String :=
  match f.scopeArr with
  | some (s :: _) => s
  | _ => ""

/-- `load_embedding_cache`: returns the empty dict when the file is
absent; discards the store when a non-empty stored scope differs from the
requested scope; otherwise reads the parallel arrays, or falls back to
the legacy format (digit-named arrays, empty-string hash). -/
def load_embedding_cache (cache_scope : String) (file : Option CacheFile) : Cache :=
  match file with
  | none => []
  | some f =>
    let s := stored_scope f
    if s ≠ "" ∧ s ≠ cache_scope then []
    else
      match f.newArrays with
      | some (ids, hashes, embs) =>
          (ids.zip (hashes.zip embs)).foldl
            (fun c p => dictSet c p.1 (p.2.1, p.2.2)) []
      | none =>
          (f.legacy.filterMap fun p =>
              if pyIsDigit p.1 then some (strToNat p.1, ("", p.2)) else none).foldl
            (fun c q => dictSet c q.1 q.2) []

/-- `save_embedding_cache`: write the scope tag plus the full mapping as
parallel arrays sorted by id. -/
def save_embedding_cache (cache_scope : String) (c : Cache) : CacheFile :=
  let idsSorted := (c.map Prod.fst).mergeSort (· ≤ ·)
  { scopeArr := some [cache_scope]
    newArrays := some
      (idsSorted,
       idsSorted.map fun i => ((dictGet c i).getD ("", [])).1,
       idsSorted.map fun i => ((dictGet c i).getD ("", [])).2)
    legacy := [] }

/-! ### Batch embedding orchestrator -/

def BATCH_SIZE : Nat := 64

/-- The batches of `range(0, len(movies), BATCH_SIZE)`. -/
def batches (movies : List Movie) : List (List Movie) :=
  chunkList BATCH_SIZE movies.length movies

/-- One run of the batch loop: each batch posts the prefixed texts to the
backend; any failed call aborts the loop with that error. -/
def runBatches (post : List String → Except String (List Vec)) :
    List (List Movie) → Except String (List Vec)
  | [] => .ok []
  | b :: bs =>
    match post (b.map fun m => "search_document: " ++ m.text) with
    | .error e => .error e
    | .ok vs =>
      match runBatches post bs with
      | .error e => .error e
      | .ok rest => .ok (vs ++ rest)

/-- `generate_with_ollama`: batch the records and collect the returned
vectors in order; a backend failure is fatal. -/
def generate_with_ollama (post : List String → Except String (List Vec))
    (movies : List Movie) : Except String (List Vec) :=
  runBatches post (batches movies)

/-- A backend that always succeeds with a per-text embedding function. -/
def okPost (embed : String → Vec) : List String → Except String (List Vec) :=
  fun texts => .ok (texts.map embed)

/-- The cache-reuse test of `generate_embeddings`: unless forcing
recompute, reuse the cached vector when an entry exists for the id and
its stored key equals the record's fresh `cache_hash`. -/
def reuseHit (force : Bool) (cache : Cache) (m : Movie) : Option Vec :=
  if force then none
  else
    match dictGet cache m.tmdb_id with
    | some (k, v) => if k = m.cache_hash then some v else none
    | none => none

/-- Assign the freshly generated vectors to the records that were marked
for regeneration (`zip(to_embed, new_embeddings)` mutating the dicts). -/
def fillNones : List (Movie × Option Vec) → List Vec → List (Movie × Option Vec)
  | [], _ => []
  | (m, some v) :: rest, vs => (m, some v) :: fillNones rest vs
  | (m, none) :: rest, [] => (m, none) :: rest
  | (m, none) :: rest, v :: vs => (m, some v) :: fillNones rest vs

/-- Cache pruning: keep only entries whose id is in the current record
set (`del cache[tmdb_id]` for each stale id). -/
def pruneStale (c : Cache) (movies : List Movie) : Cache :=
  c.filter fun p => movies.any fun m => m.tmdb_id == p.1

/-- `generate_embeddings`: split records into reused vs to-embed, call the
backend for the latter, write the new entries back into the cache, and
optionally prune.  Returns each record with its (optional) vector plus
the updated cache; a backend error propagates. -/
def generate_embeddings (post : List String → Except String (List Vec))
    (force prune : Bool) (movies : List Movie) (cache : Cache) :
    Except String (List (Movie × Option Vec) × Cache) :=
  let marked := movies.map fun m => (m, reuseHit force cache m)
  let toEmbed := movies.filter fun m => (reuseHit force cache m).isNone
  if toEmbed.isEmpty then
    .ok (marked, if prune then pruneStale cache movies else cache)
  else
    match generate_with_ollama post toEmbed with
    | .error e => .error e
    | .ok newEmbs =>
      let cache1 := (toEmbed.zip newEmbs).foldl
        (fun c p => dictSet c p.1.tmdb_id (p.1.cache_hash, p.2)) cache
      .ok (fillNones marked newEmbs,
           if prune then pruneStale cache1 movies else cache1)

/-! ### Quantizer -/

/-- Minimum of a list (`.min(axis=0)` per column entry). -/
def listMin : List ℚ → ℚ
  | [] => 0
  | x :: xs => xs.foldl min x

/-- Maximum of a list (`.max(axis=0)` per column entry). -/
def listMax : List ℚ → ℚ
  | [] => 0
  | x :: xs => xs.foldl max x

/-- The values of column `j`. -/
def colVals (rows : List (List ℚ)) (j : Nat) : List ℚ :=
  rows.map fun r => r.getD j 0

/-- One quantized entry: normalize by column min and range, scale by 255,
clip to `[0, 255]`, truncate to an unsigned byte. -/
def qbyte (v mn rg : ℚ) : Nat :=
  ⌊min (max ((v - mn) / rg * 255) 0) 255⌋.toNat

/-- The per-column range with zeros replaced by 1
(`ranges[ranges == 0] = 1`). -/
def colRange (rows : List (List ℚ)) (j : Nat) : ℚ :=
  if listMax (colVals rows j) - listMin (colVals rows j) = 0 then 1
  else listMax (colVals rows j) - listMin (colVals rows j)

/-- `quantize`: per-column min-max normalization to bytes, a zero range
replaced by 1. -/
def quantize (rows : List (List ℚ)) : List (List Nat) :=
  rows.map fun r =>
    (List.range (rows.headD []).length).map fun j =>
      qbyte (r.getD j 0) (listMin (colVals rows j)) (colRange rows j)

/-! ### Binary encoders (`struct.pack` model: bytes as `List Nat`,
out-of-range packs raise, modelled as `none`) -/

/-- Little-endian bytes of a 32-bit value. -/
def le32 (n : Nat) : List Nat :=
  [n % 256, n / 256 % 256, n / 65536 % 256, n / 16777216 % 256]

/-- `struct.pack("<I", n)`: raises unless `n < 2^32`. -/
def packU32 (n : Nat) : Option (List Nat) :=
  if n < 4294967296 then some (le32 n) else none

/-- `struct.pack("<B", n)`: raises unless `n < 256`. -/
def packU8 (n : Nat) : Option (List Nat) :=
  if n < 256 then some [n] else none

/-- One metadata record: id, imdb number, rating byte, title length byte,
title bytes truncated to 255. -/
def encode_metadata_record (m : Movie) : Option (List Nat) := do
  let title := (strBytes m.title).take 255
  let a ← packU32 m.tmdb_id
  let b ← packU32 m.imdb_num
  let c ← packU8 m.rating_x10
  let d ← packU8 title.length
  return a ++ b ++ c ++ d ++ title

/-- The concatenated metadata records. -/
def encodeMetaRecords : List Movie → Option (List Nat)
  | [] => some []
  | m :: rest => do
    let b ← encode_metadata_record m
    let bs ← encodeMetaRecords rest
    return b ++ bs

/-- `write_metadata_binary`: count header then the records in order. -/
def write_metadata_binary (movies : List Movie) : Option (List Nat) := do
  let header ← packU32 movies.length
  let body ← encodeMetaRecords movies
  return header ++ body

/-- One embedding record: id, poster length byte (not truncated — packing
raises if the UTF-8 poster exceeds 255 bytes), poster bytes, then the raw
quantized row. -/
def encode_embedding_record (m : Movie) (qrow : List Nat) : Option (List Nat) := do
  let poster := strBytes m.poster_path
  let a ← packU32 m.tmdb_id
  let b ← packU8 poster.length
  return a ++ b ++ poster ++ qrow

/-- The concatenated embedding records. -/
def encodeEmbRecords : List (Movie × List Nat) → Option (List Nat)
  | [] => some []
  | (m, q) :: rest => do
    let b ← encode_embedding_record m q
    let bs ← encodeEmbRecords rest
    return b ++ bs

/-- `write_embeddings_binary`: count header then the records, each paired
with its quantized row. -/
def write_embeddings_binary (movies : List Movie) (quantized : List (List Nat)) :
    Option (List Nat) := do
  let header ← packU32 movies.length
  let body ← encodeEmbRecords (movies.zip quantized)
  return header ++ body

/-! ### Decoders for the documented byte layout (spec section 4.6).
These model the external reader: they invert the fixed field widths the
writer commits to. -/

/-- Read a 4-byte little-endian unsigned value. -/
def readU32 : List Nat → Option (Nat × List Nat)
  | b0 :: b1 :: b2 :: b3 :: rest =>
      some (b0 + 256 * b1 + 65536 * b2 + 16777216 * b3, rest)
  | _ => none

/-- Read one unsigned byte. -/
def readU8 : List Nat → Option (Nat × List Nat)
  | b0 :: rest => some (b0, rest)
  | _ => none

/-- Read exactly `k` bytes. -/
def readBytes (k : Nat) (s : List Nat) : Option (List Nat × List Nat) :=
  if k ≤ s.length then some (s.take k, s.drop k) else none

/-- A decoded metadata record. -/
structure MetaRec where
  mid : Nat
  xref : Nat
  score : Nat
  titleBytes : List Nat
deriving DecidableEq

/-- Decode one metadata record from the stream. -/
def decode_metadata_record (s : List Nat) : Option (MetaRec × List Nat) := do
  let (mid, s1) ← readU32 s
  let (xref, s2) ← readU32 s1
  let (score, s3) ← readU8 s2
  let (tlen, s4) ← readU8 s3
  let (tb, s5) ← readBytes tlen s4
  return (⟨mid, xref, score, tb⟩, s5)

/-- Decode `n` metadata records, consuming the whole stream. -/
def decodeMetaRecords : Nat → List Nat → Option (List MetaRec)
  | 0, [] => some []
  | 0, _ :: _ => none
  | n + 1, s => do
    let (r, s1) ← decode_metadata_record s
    let rest ← decodeMetaRecords n s1
    return r :: rest

/-- Decode a whole metadata stream: count header then that many records. -/
def decode_metadata (s : List Nat) : Option (List MetaRec) := do
  let (n, s1) ← readU32 s
  decodeMetaRecords n s1

/-- A decoded embedding record. -/
structure EmbRec where
  mid : Nat
  posterBytes : List Nat
  qbytes : List Nat
deriving DecidableEq

/-- Decode one embedding record (for a known vector width `K`). -/
def decode_embedding_record (K : Nat) (s : List Nat) : Option (EmbRec × List Nat) := do
  let (mid, s1) ← readU32 s
  let (plen, s2) ← readU8 s1
  let (pb, s3) ← readBytes plen s2
  let (qb, s4) ← readBytes K s3
  return (⟨mid, pb, qb⟩, s4)

/-! ### Text normalizer (the embedding-input text of `filter_movies`) -/

/-- Python whitespace stripped by `str.strip()` (ASCII subset). -/
def pySpace (c : Char) : Bool :=
  c = ' ' || c = '\t' || c = '\n' || c = '\x0d' || c = '\x0b' || c = '\x0c'

/-- Python `str.strip()`: drop leading and trailing whitespace. -/
def pyStrip (s : String) : String :=
  String.mk (((s.data.dropWhile pySpace).reverse.dropWhile pySpace).reverse)

/-- The embedding-input text: the stripped pre-combined field when it is a
present, non-blank string, else the non-empty fields joined with ". ".
`title`, `tagline`, `overview` are the already-stripped locals. -/
def derive_text (title tagline overview : String) (tto : Option String) : String :=
  match tto with
  | some t =>
      if pyStrip t ≠ "" then pyStrip t
      else String.intercalate ". " ([title, tagline, overview].filter fun p => p ≠ "")
  | none => String.intercalate ". " ([title, tagline, overview].filter fun p => p ≠ "")

/-! ### The run after filtering: disk effects in program order -/

/-- The files the pipeline may write: the cache container and the two
binary outputs. -/
structure Disk where
  cacheFile : Option CacheFile
  embeddingsBin : Option (List Nat)
  metadataBin : Option (List Nat)
deriving DecidableEq

/-- The run from `load_embedding_cache` onward: generate (or reuse)
embeddings, save the cache, check completeness, reduce (external
transform `reduceFn`), quantize, and write both binaries.  Any failure
stops the run at that point; earlier disk writes remain. -/
def run_pipeline (post : List String → Except String (List Vec))
    (reduceFn : List Vec → List (List ℚ)) (force prune : Bool)
    (cache_scope : String) (movies : List Movie) (disk : Disk) :
    Disk × Option String :=
  let cache := load_embedding_cache cache_scope disk.cacheFile
  match generate_embeddings post force prune movies cache with
  | .error e => (disk, some e)
  | .ok (pairs, cache1) =>
    let disk1 := { disk with cacheFile := some (save_embedding_cache cache_scope cache1) }
    if pairs.any fun p => p.2.isNone then (disk1, some "missing embeddings")
    else
      let reduced := reduceFn (pairs.filterMap fun p => p.2)
      let q := quantize reduced
      match write_embeddings_binary movies q with
      | none => (disk1, some "pack error")
      | some ebin =>
        let disk2 := { disk1 with embeddingsBin := some ebin }
        match write_metadata_binary movies with
        | none => (disk2, some "pack error")
        | some mbin => ({ disk2 with metadataBin := some mbin }, none)

/-! ### Lemmas: hex digest length -/

theorem length_flatMap_byteHex (l : List Nat) :
    (l.flatMap byteHex).length = 2 * l.length := by
  induction l with
  | nil => rfl
  | cons b rest ih =>
      simp [List.flatMap_cons, byteHex, ih]
      ring

theorem digestBytes_length (s : Hash8) : (digestBytes s).length = 32 := rfl

/-- Every freshly computed cache key is a 64-character hex digest. -/
theorem hash_text_length (text cache_scope : String) :
    (hash_text text cache_scope).length = 64 := by
  show ((digestBytes (sha256 (strBytes (cache_scope ++ "\n" ++ text)))).flatMap byteHex).length = 64
  rw [length_flatMap_byteHex, digestBytes_length]

theorem hash_text_ne_empty (text cache_scope : String) :
    hash_text text cache_scope ≠ "" := by
  intro h
  have := hash_text_length text cache_scope
  rw [h] at this
  simp [String.length] at this

/-! ### Lemmas: dict operations -/

theorem dictGet_dictSet_self (c : Cache) (k : Nat) (v : String × Vec) :
    dictGet (dictSet c k v) k = some v := by
  induction c with
  | nil => simp [dictSet, dictGet]
  | cons p rest ih =>
      by_cases h : p.1 = k
      · simp [dictSet, h, dictGet]
      · simp [dictSet, h, dictGet, ih]

theorem dictGet_dictSet_ne (c : Cache) (k : Nat) (v : String × Vec) (id0 : Nat)
    (h : k ≠ id0) : dictGet (dictSet c k v) id0 = dictGet c id0 := by
  induction c with
  | nil => simp [dictSet, dictGet, h]
  | cons p rest ih =>
      by_cases hp : p.1 = k
      · obtain ⟨p1, p2⟩ := p
        simp only at hp
        subst hp
        simp [dictSet, dictGet, h]
      · simp [dictSet, hp, dictGet, ih]

theorem isSome_dictGet_dictSet (c : Cache) (k : Nat) (v : String × Vec) (id0 : Nat)
    (h : (dictGet c id0).isSome = true) :
    (dictGet (dictSet c k v) id0).isSome = true := by
  by_cases hk : k = id0
  · subst hk
    rw [dictGet_dictSet_self]
    rfl
  · rw [dictGet_dictSet_ne c k v id0 hk]
    exact h

/-! ### Lemmas: batching -/

theorem chunkList_flatten (n : Nat) (hn : 0 < n) :
    ∀ (fuel : Nat) (l : List α), l.length ≤ fuel →
      (chunkList n fuel l).flatten = l := by
  intro fuel
  induction fuel with
  | zero =>
      intro l hl
      have : l = [] := List.eq_nil_of_length_eq_zero (Nat.le_zero.mp hl)
      subst this
      rfl
  | succ fuel ih =>
      intro l hl
      cases l with
      | nil => rfl
      | cons x xs =>
          show (x :: xs).take n ++ (chunkList n fuel ((x :: xs).drop n)).flatten = x :: xs
          have hlen : ((x :: xs).drop n).length ≤ fuel := by
            simp only [List.length_drop, List.length_cons] at hl ⊢
            omega
          rw [ih ((x :: xs).drop n) hlen, List.take_append_drop]

theorem runBatches_okPost (embed : String → Vec) :
    ∀ bs : List (List Movie),
      runBatches (okPost embed) bs =
        .ok (bs.flatten.map fun m => embed ("search_document: " ++ m.text)) := by
  intro bs
  induction bs with
  | nil => rfl
  | cons b rest ih =>
      simp only [runBatches, okPost, ih, List.flatten_cons, List.map_append, List.map_map]
      rfl

theorem generate_with_ollama_okPost (embed : String → Vec) (movies : List Movie) :
    generate_with_ollama (okPost embed) movies =
      .ok (movies.map fun m => embed ("search_document: " ++ m.text)) := by
  unfold generate_with_ollama batches
  rw [runBatches_okPost, chunkList_flatten BATCH_SIZE (by decide) movies.length movies le_rfl]

/-! ### Lemmas: assignment of generated vectors -/

theorem fillNones_spec (f : Movie → Vec) (g : Movie → Option Vec) :
    ∀ movies : List Movie,
      fillNones (movies.map fun m => (m, g m))
          ((movies.filter fun m => (g m).isNone).map f) =
        movies.map fun m => (m, some ((g m).getD (f m))) := by
  intro movies
  induction movies with
  | nil => rfl
  | cons m rest ih =>
      cases hg : g m with
      | some v =>
          simp only [List.map_cons, List.filter_cons, hg, Option.isNone_some,
            Bool.false_eq_true, if_false, fillNones, ih, Option.getD_some]
      | none =>
          simp only [List.map_cons, List.filter_cons, hg, Option.isNone_none,
            if_true, fillNones, ih, Option.getD_none]

/-! ### Lemmas: pruning and batch cache writes -/

theorem dictGet_pruneStale (c : Cache) (movies : List Movie) (id0 : Nat) :
    dictGet (pruneStale c movies) id0 =
      if (movies.any fun m => m.tmdb_id == id0) = true then dictGet c id0 else none := by
  induction c with
  | nil => simp [pruneStale, dictGet]
  | cons p rest ih =>
      obtain ⟨k, v⟩ := p
      by_cases hk : k = id0
      · subst hk
        by_cases ha : (movies.any fun m => m.tmdb_id == k) = true
        · simp [pruneStale, ha, dictGet] at ih ⊢
        · simp [pruneStale, ha, dictGet] at ih ⊢
          exact ih
      · by_cases ha : (movies.any fun m => m.tmdb_id == k) = true
        · simp [pruneStale, ha, dictGet, hk] at ih ⊢
          exact ih
        · simp [pruneStale, ha, dictGet, hk] at ih ⊢
          exact ih

theorem zip_self_map (f : Movie → Vec) :
    ∀ l : List Movie, l.zip (l.map f) = l.map fun m => (m, f m) := by
  intro l
  induction l with
  | nil => rfl
  | cons m rest ih => simp [ih]

theorem dictGet_foldl_upd_not_mem (f : Movie → Vec) :
    ∀ (l : List Movie) (c : Cache) (id0 : Nat),
      (∀ m ∈ l, m.tmdb_id ≠ id0) →
      dictGet (l.foldl (fun c2 m => dictSet c2 m.tmdb_id (m.cache_hash, f m)) c) id0 =
        dictGet c id0 := by
  intro l
  induction l with
  | nil => intro c id0 _; rfl
  | cons m rest ih =>
      intro c id0 h
      have hm : m.tmdb_id ≠ id0 := h m (List.mem_cons_self m rest)
      show dictGet (rest.foldl _ (dictSet c m.tmdb_id (m.cache_hash, f m))) id0 = _
      rw [ih _ id0 fun m' hm' => h m' (List.mem_cons_of_mem m hm'),
        dictGet_dictSet_ne _ _ _ _ hm]

theorem dictGet_foldl_upd_mem (f : Movie → Vec) :
    ∀ (l : List Movie) (c : Cache) (m : Movie),
      (l.map Movie.tmdb_id).Nodup → m ∈ l →
      dictGet (l.foldl (fun c2 m' => dictSet c2 m'.tmdb_id (m'.cache_hash, f m')) c)
          m.tmdb_id = some (m.cache_hash, f m) := by
  intro l
  induction l with
  | nil => intro c m _ hm; cases hm
  | cons m0 rest ih =>
      intro c m hnd hm
      simp only [List.map_cons, List.nodup_cons] at hnd
      rcases List.mem_cons.mp hm with h | h
      · subst h
        show dictGet (rest.foldl _ (dictSet c m.tmdb_id (m.cache_hash, f m))) m.tmdb_id = _
        have hne : ∀ m' ∈ rest, m'.tmdb_id ≠ m.tmdb_id := by
          intro m' hm' heq
          exact hnd.1 (List.mem_map.mpr ⟨m', hm', heq⟩)
        rw [dictGet_foldl_upd_not_mem f rest _ m.tmdb_id hne]
        exact dictGet_dictSet_self _ _ _
      · exact ih _ m hnd.2 h

theorem isSome_dictGet_foldl_upd (f : Movie → Vec) :
    ∀ (l : List Movie) (c : Cache) (id0 : Nat),
      (dictGet c id0).isSome = true →
      (dictGet (l.foldl (fun c2 m => dictSet c2 m.tmdb_id (m.cache_hash, f m)) c)
          id0).isSome = true := by
  intro l
  induction l with
  | nil => intro c id0 h; exact h
  | cons m rest ih =>
      intro c id0 h
      exact ih _ id0 (isSome_dictGet_dictSet _ _ _ _ h)


/-- The backend's embedding of one record's prefixed text. -/
def embedText (embed : String → Vec) (m : Movie) : Vec :=
  embed ("search_document: " ++ m.text)

theorem generate_with_ollama_okPost2 (embed : String → Vec) (movies : List Movie) :
    generate_with_ollama (okPost embed) movies = .ok (movies.map (embedText embed)) :=
  generate_with_ollama_okPost embed movies

/-- The cache after writing back all regenerated entries. -/
def cacheAfterWrites (embed : String → Vec) (force : Bool)
    (movies : List Movie) (cache : Cache) : Cache :=
  (movies.filter fun m => (reuseHit force cache m).isNone).foldl
    (fun c2 m => dictSet c2 m.tmdb_id (m.cache_hash, embedText embed m)) cache

/-- Closed form of `generate_embeddings` when every backend call
succeeds: each record gets its reused or regenerated vector, and the
cache is the written-back cache, pruned on request. -/
theorem generate_embeddings_okPost (embed : String → Vec) (force prune : Bool)
    (movies : List Movie) (cache : Cache) :
    generate_embeddings (okPost embed) force prune movies cache =
      .ok (movies.map fun m => (m, some ((reuseHit force cache m).getD (embedText embed m))),
           if prune then pruneStale (cacheAfterWrites embed force movies cache) movies
           else cacheAfterWrites embed force movies cache) := by
  by_cases he : (movies.filter fun m => (reuseHit force cache m).isNone).isEmpty
  · have hnil : (movies.filter fun m => (reuseHit force cache m).isNone) = [] :=
      List.isEmpty_iff.mp he
    have hall : ∀ m ∈ movies, ¬ ((reuseHit force cache m).isNone = true) := by
      intro m hm hno
      have : m ∈ (movies.filter fun m => (reuseHit force cache m).isNone) :=
        List.mem_filter.mpr ⟨hm, hno⟩
      rw [hnil] at this
      cases this
    have hmap : (movies.map fun m => (m, reuseHit force cache m)) =
        movies.map fun m => (m, some ((reuseHit force cache m).getD (embedText embed m))) := by
      apply List.map_congr_left
      intro m hm
      cases hr : reuseHit force cache m with
      | some v => simp
      | none => exact absurd (by rw [hr]; rfl) (hall m hm)
    unfold generate_embeddings
    simp only [hnil, List.isEmpty_nil, if_true, hmap, cacheAfterWrites, List.foldl_nil]
  · unfold generate_embeddings
    simp only [he, Bool.false_eq_true, if_false]
    rw [generate_with_ollama_okPost2]
    have hzip := zip_self_map (embedText embed)
      (movies.filter fun m => (reuseHit force cache m).isNone)
    have hfill := fillNones_spec (embedText embed) (reuseHit force cache) movies
    simp only [hzip, hfill, List.foldl_map, cacheAfterWrites]

/-- C1: a record reuses the cached vector exactly when recompute is not
forced and the cache entry under its id carries its fresh cache key;
every other record gets the backend's vector, and the updated cache then
holds its fresh key and new vector. -/
theorem generate_embeddings_reuse_iff (embed : String → Vec) (force prune : Bool)
    (movies : List Movie) (cache : Cache)
    (pairs : List (Movie × Option Vec)) (cache' : Cache)
    (hnd : (movies.map Movie.tmdb_id).Nodup)
    (hok : generate_embeddings (okPost embed) force prune movies cache = .ok (pairs, cache'))
    (i : Nat) (hi : i < movies.length) :
    (∀ v : Vec, force = false →
        dictGet cache movies[i].tmdb_id = some (movies[i].cache_hash, v) →
        pairs[i]? = some (movies[i], some v)) ∧
    ((force = true ∨
        ∀ v : Vec, dictGet cache movies[i].tmdb_id ≠ some (movies[i].cache_hash, v)) →
        pairs[i]? = some (movies[i], some (embedText embed movies[i])) ∧
        dictGet cache' movies[i].tmdb_id =
          some (movies[i].cache_hash, embedText embed movies[i])) := by
  rw [generate_embeddings_okPost] at hok
  have hpairs : pairs =
      movies.map fun m => (m, some ((reuseHit force cache m).getD (embedText embed m))) := by
    cases hok
    rfl
  have hcache' : cache' =
      if prune then pruneStale (cacheAfterWrites embed force movies cache) movies
      else cacheAfterWrites embed force movies cache := by
    cases hok
    rfl
  constructor
  · intro v hforce hget
    have hr : reuseHit force cache movies[i] = some v := by
      unfold reuseHit
      rw [hforce, hget]
      simp
    rw [hpairs, List.getElem?_map, List.getElem?_eq_getElem hi]
    simp [hr]
  · intro hmiss
    have hr : reuseHit force cache movies[i] = none := by
      rcases hmiss with h | h
      · simp [reuseHit, h]
      · cases hforce : force with
        | true => simp [reuseHit]
        | false =>
            simp only [reuseHit, Bool.false_eq_true, if_false]
            cases hget : dictGet cache movies[i].tmdb_id with
            | none => rfl
            | some kv =>
                obtain ⟨k, w⟩ := kv
                by_cases hk : k = movies[i].cache_hash
                · subst hk
                  exact absurd hget (h w)
                · simp [hk]
    constructor
    · rw [hpairs, List.getElem?_map, List.getElem?_eq_getElem hi]
      simp [hr]
    · have hmem : movies[i] ∈ movies.filter fun m => (reuseHit force cache m).isNone :=
        List.mem_filter.mpr ⟨movies.getElem_mem hi, by rw [hr]; rfl⟩
      have hndf : ((movies.filter fun m =>
          (reuseHit force cache m).isNone).map Movie.tmdb_id).Nodup :=
        hnd.sublist ((List.filter_sublist movies).map Movie.tmdb_id)
      have hfold := dictGet_foldl_upd_mem (embedText embed)
        (movies.filter fun m => (reuseHit force cache m).isNone) cache movies[i] hndf hmem
      rw [hcache']
      cases prune with
      | false =>
          simpa [cacheAfterWrites] using hfold
      | true =>
          simp only [if_true]
          rw [dictGet_pruneStale]
          have hany : (movies.any fun m => m.tmdb_id == movies[i].tmdb_id) = true :=
            List.any_eq_true.mpr ⟨movies[i], movies.getElem_mem hi, by simp⟩
          rw [hany]
          simpa [cacheAfterWrites] using hfold

/-- C8: the run changes cache entries only for identifiers in the current
record set; with pruning disabled, out-of-set entries are untouched, and
with pruning enabled exactly the out-of-set entries are removed. -/
theorem generate_embeddings_frame (embed : String → Vec) (force prune : Bool)
    (movies : List Movie) (cache : Cache)
    (pairs : List (Movie × Option Vec)) (cache' : Cache)
    (hok : generate_embeddings (okPost embed) force prune movies cache = .ok (pairs, cache'))
    (id0 : Nat) :
    ((∀ m ∈ movies, m.tmdb_id ≠ id0) →
        (prune = false → dictGet cache' id0 = dictGet cache id0) ∧
        (prune = true → dictGet cache' id0 = none)) ∧
    (prune = true → (∃ m ∈ movies, m.tmdb_id = id0) →
        (dictGet cache id0).isSome = true → (dictGet cache' id0).isSome = true) := by
  rw [generate_embeddings_okPost] at hok
  have hcache' : cache' =
      if prune then pruneStale (cacheAfterWrites embed force movies cache) movies
      else cacheAfterWrites embed force movies cache := by
    cases hok
    rfl
  constructor
  · intro hout
    have hfold : dictGet (cacheAfterWrites embed force movies cache) id0 = dictGet cache id0 := by
      apply dictGet_foldl_upd_not_mem
      intro m hm
      exact hout m (List.mem_of_mem_filter hm)
    have hany : (movies.any fun m => m.tmdb_id == id0) = false := by
      rw [List.any_eq_false]
      intro m hm
      simpa using hout m hm
    constructor
    · intro hp
      rw [hcache', hp]
      simpa using hfold
    · intro hp
      rw [hcache', hp]
      simp only [if_true]
      rw [dictGet_pruneStale, hany]
      simp
  · intro hp hin hsome
    have h1 : (dictGet (cacheAfterWrites embed force movies cache) id0).isSome = true :=
      isSome_dictGet_foldl_upd _ _ _ _ hsome
    obtain ⟨m, hm, hmid⟩ := hin
    have hany : (movies.any fun m => m.tmdb_id == id0) = true :=
      List.any_eq_true.mpr ⟨m, hm, by simp [hmid]⟩
    rw [hcache', hp]
    simp only [if_true]
    rw [dictGet_pruneStale, hany]
    simpa using h1

/-! ### Cache store load: scope handling and the legacy format -/

/-- C4 (amended): a persisted store whose stored scope tag is non-empty
and differs from the requested scope loads as the empty mapping, wholly
discarded; an absent file also loads as the empty mapping. -/
theorem load_cache_scope_mismatch (cache_scope : String) (f : CacheFile)
    (h1 : stored_scope f ≠ "") (h2 : stored_scope f ≠ cache_scope) :
    load_embedding_cache cache_scope (some f) = [] ∧
    load_embedding_cache cache_scope none = [] := by
  refine ⟨?_, rfl⟩
  unfold load_embedding_cache
  simp [h1, h2]

/-- C4 counterexample: a persisted file whose stored scope tag is the
empty string differs from the requested scope `"s"`, yet `load` does not
return the empty mapping — the empty tag skips the mismatch check and the
legacy arrays are loaded. -/
theorem load_cache_scope_mismatch_cex :
    stored_scope ⟨some [""], none, [("7", [0])]⟩ ≠ "s" ∧
    load_embedding_cache "s" (some ⟨some [""], none, [("7", [0])]⟩) ≠ [] := by
  constructor
  · decide
  · intro h
    rw [show load_embedding_cache "s" (some ⟨some [""], none, [("7", [0])]⟩) =
        [(7, ("", [0]))] from rfl] at h
    cases h

/-- One dict write of an empty-keyed value preserves "all stored cache
keys are empty". -/
theorem dictSet_empty_hash_pres (c : Cache) (k0 : Nat) (v0 : String × Vec)
    (hv : v0.1 = "")
    (hc : ∀ id0 k v, dictGet c id0 = some (k, v) → k = "") :
    ∀ id0 k v, dictGet (dictSet c k0 v0) id0 = some (k, v) → k = "" := by
  intro id0 k v hget
  by_cases hk : k0 = id0
  · subst hk
    rw [dictGet_dictSet_self] at hget
    cases hget
    exact hv
  · rw [dictGet_dictSet_ne _ _ _ _ hk] at hget
    exact hc id0 k v hget

/-- Folding empty-keyed writes preserves "all stored cache keys are
empty". -/
theorem foldl_dictSet_empty_hash (l : List (Nat × (String × Vec)))
    (hl : ∀ q ∈ l, q.2.1 = "") :
    ∀ c : Cache, (∀ id0 k v, dictGet c id0 = some (k, v) → k = "") →
      ∀ id0 k v,
        dictGet (l.foldl (fun c2 q => dictSet c2 q.1 q.2) c) id0 = some (k, v) → k = "" := by
  induction l with
  | nil => intro c hc; exact hc
  | cons q rest ih =>
      intro c hc
      exact ih (fun q' hq' => hl q' (List.mem_cons_of_mem q hq'))
        (dictSet c q.1 q.2)
        (dictSet_empty_hash_pres c q.1 q.2 (hl q (List.mem_cons_self q rest)) hc)

/-- C10: a legacy-format cache file (no ids/hashes/embeddings arrays)
loads every entry with an empty cache key; fresh cache keys are
64-character SHA-256 hex digests, so the reuse check fails and every
legacy entry is regenerated even without forcing recompute. -/
theorem legacy_cache_never_reused (cache_scope : String) (f : CacheFile) (m : Movie)
    (hleg : f.newArrays = none)
    (hm : m.cache_hash = hash_text m.text cache_scope) :
    (hash_text m.text cache_scope).length = 64 ∧
    (∀ id0 k v, dictGet (load_embedding_cache cache_scope (some f)) id0 =
        some (k, v) → k = "") ∧
    reuseHit false (load_embedding_cache cache_scope (some f)) m = none := by
  have hload : load_embedding_cache cache_scope (some f) =
      (f.legacy.filterMap fun p =>
          if pyIsDigit p.1 then some (strToNat p.1, ("", p.2)) else none).foldl
        (fun c2 q => dictSet c2 q.1 q.2) [] ∨
      load_embedding_cache cache_scope (some f) = [] := by
    simp only [load_embedding_cache]
    by_cases hsc : stored_scope f ≠ "" ∧ stored_scope f ≠ cache_scope
    · right
      rw [if_pos hsc]
    · left
      rw [if_neg hsc, hleg]
  have hempty : ∀ id0 k v,
      dictGet (load_embedding_cache cache_scope (some f)) id0 = some (k, v) → k = "" := by
    rcases hload with h | h
    · rw [h]
      apply foldl_dictSet_empty_hash
      · intro q hq
        obtain ⟨p, _, hp⟩ := List.mem_filterMap.mp hq
        by_cases hd : pyIsDigit p.1
        · rw [if_pos hd] at hp
          cases hp
          rfl
        · rw [if_neg hd] at hp
          cases hp
      · intro id0 k v hget
        simp [dictGet] at hget
    · rw [h]
      intro id0 k v hget
      simp [dictGet] at hget
  refine ⟨hash_text_length _ _, hempty, ?_⟩
  unfold reuseHit
  simp only [Bool.false_eq_true, if_false]
  cases hget : dictGet (load_embedding_cache cache_scope (some f)) m.tmdb_id with
  | none => rfl
  | some kv =>
      obtain ⟨k, v⟩ := kv
      have hk : k = "" := hempty _ _ _ hget
      subst hk
      have hne : "" ≠ m.cache_hash := by
        rw [hm]
        exact fun h => hash_text_ne_empty m.text cache_scope h.symm
      simp [hne]

/-! ### Failure semantics of the run -/

/-- C5: when a batch call to the embedding backend fails, the run aborts
with that error and the disk — cache file and both output files — is
returned unchanged: the cache save and the output writes are never
reached. -/
theorem backend_failure_leaves_disk_unchanged
    (post : List String → Except String (List Vec))
    (reduceFn : List Vec → List (List ℚ)) (force prune : Bool)
    (cache_scope : String) (movies : List Movie) (disk : Disk) (e : String)
    (hfail : generate_with_ollama post
        (movies.filter fun m =>
          (reuseHit force (load_embedding_cache cache_scope disk.cacheFile) m).isNone) =
        .error e) :
    run_pipeline post reduceFn force prune cache_scope movies disk = (disk, some e) := by
  have hne : ((movies.filter fun m =>
      (reuseHit force (load_embedding_cache cache_scope disk.cacheFile) m).isNone).isEmpty)
      = false := by
    cases hemp : ((movies.filter fun m =>
        (reuseHit force (load_embedding_cache cache_scope disk.cacheFile) m).isNone).isEmpty) with
    | false => rfl
    | true =>
        rw [List.isEmpty_iff.mp hemp] at hfail
        cases hfail
  simp only [run_pipeline, generate_embeddings]
  rw [hne]
  simp only [Bool.false_eq_true, if_false]
  rw [hfail]

/-! ### Quantizer lemmas -/

theorem foldl_min_const (c : ℚ) :
    ∀ xs : List ℚ, (∀ x ∈ xs, x = c) → xs.foldl min c = c := by
  intro xs
  induction xs with
  | nil => intro _; rfl
  | cons x rest ih =>
      intro h
      rw [List.foldl_cons, h x (List.mem_cons_self x rest), min_self]
      exact ih fun y hy => h y (List.mem_cons_of_mem x hy)

theorem foldl_max_const (c : ℚ) :
    ∀ xs : List ℚ, (∀ x ∈ xs, x = c) → xs.foldl max c = c := by
  intro xs
  induction xs with
  | nil => intro _; rfl
  | cons x rest ih =>
      intro h
      rw [List.foldl_cons, h x (List.mem_cons_self x rest), max_self]
      exact ih fun y hy => h y (List.mem_cons_of_mem x hy)

theorem listMin_const (c : ℚ) (l : List ℚ) (hne : l ≠ []) (h : ∀ x ∈ l, x = c) :
    listMin l = c := by
  cases l with
  | nil => exact absurd rfl hne
  | cons x xs =>
      show xs.foldl min x = c
      rw [h x (List.mem_cons_self x xs)]
      exact foldl_min_const c xs fun y hy => h y (List.mem_cons_of_mem x hy)

theorem listMax_const (c : ℚ) (l : List ℚ) (hne : l ≠ []) (h : ∀ x ∈ l, x = c) :
    listMax l = c := by
  cases l with
  | nil => exact absurd rfl hne
  | cons x xs =>
      show xs.foldl max x = c
      rw [h x (List.mem_cons_self x xs)]
      exact foldl_max_const c xs fun y hy => h y (List.mem_cons_of_mem x hy)

/-- A zero-variance value quantizes to the byte 0. -/
theorem qbyte_self (c : ℚ) : qbyte c c 1 = 0 := by
  unfold qbyte
  norm_num

/-- C6: a column whose values are all equal quantizes without failure —
the zero range is replaced by 1 — and every row's byte in that column is
one constant value. -/
theorem quantize_constant_column (rows : List (List ℚ)) (j : Nat) (c : ℚ)
    (hne : rows ≠ [])
    (hj : j < (rows.headD []).length)
    (hconst : ∀ r ∈ rows, r.getD j 0 = c) :
    ∃ b, ∀ qr ∈ quantize rows, qr.getD j 0 = b := by
  have hcv : ∀ x ∈ colVals rows j, x = c := by
    intro x hx
    obtain ⟨r, hr, rfl⟩ := List.mem_map.mp hx
    exact hconst r hr
  have hcvne : colVals rows j ≠ [] := by
    unfold colVals
    intro h
    exact hne (List.map_eq_nil_iff.mp h)
  have hmin : listMin (colVals rows j) = c := listMin_const c _ hcvne hcv
  have hmax : listMax (colVals rows j) = c := listMax_const c _ hcvne hcv
  have hrg : colRange rows j = 1 := by
    unfold colRange
    rw [hmin, hmax]
    simp
  refine ⟨0, ?_⟩
  intro qr hqr
  obtain ⟨r, hr, rfl⟩ := List.mem_map.mp hqr
  have hentry : ((List.range (rows.headD []).length).map fun j' =>
      qbyte (r.getD j' 0) (listMin (colVals rows j')) (colRange rows j')).getD j 0 =
      qbyte (r.getD j 0) (listMin (colVals rows j)) (colRange rows j) := by
    rw [List.getD_eq_getElem?_getD, List.getElem?_map, List.getElem?_range hj]
    rfl
  rw [hentry, hconst r hr, hmin, hrg, qbyte_self]

/-- C7: quantizing `[[0,0],[1,1],[2,2]]` yields `[[0,0],[m,m],[255,255]]`
with the midpoint truncating to `m = 127` under the exact formula. -/
theorem quantize_midpoint_example :
    ∃ mq : Nat, quantize [[0,0],[1,1],[2,2]] = [[0,0],[mq,mq],[255,255]] ∧
      (mq = 127 ∨ mq = 128) := by
  refine ⟨127, ?_, Or.inl rfl⟩
  norm_num [quantize, colVals, listMin, listMax, colRange, qbyte,
    List.range_succ, min_def, max_def]
  decide

/-! ### Binary round-trip lemmas -/

theorem readU32_le32 (n : Nat) (rest : List Nat) (h : n < 4294967296) :
    readU32 (le32 n ++ rest) = some (n, rest) := by
  show some (n % 256 + 256 * (n / 256 % 256) + 65536 * (n / 65536 % 256) +
      16777216 * (n / 16777216 % 256), rest) = some (n, rest)
  have hn : n % 256 + 256 * (n / 256 % 256) + 65536 * (n / 65536 % 256) +
      16777216 * (n / 16777216 % 256) = n := by omega
  rw [hn]

theorem readBytes_append (t rest : List Nat) :
    readBytes t.length (t ++ rest) = some (t, rest) := by
  unfold readBytes
  rw [if_pos (by simp), List.take_left, List.drop_left]

theorem encode_metadata_record_eq (m : Movie)
    (h1 : m.tmdb_id < 4294967296) (h2 : m.imdb_num < 4294967296)
    (h3 : m.rating_x10 < 256) :
    encode_metadata_record m =
      some (le32 m.tmdb_id ++ le32 m.imdb_num ++ [m.rating_x10] ++
        [((strBytes m.title).take 255).length] ++ (strBytes m.title).take 255) := by
  have ht : ((strBytes m.title).take 255).length < 256 := by
    rw [List.length_take]
    omega
  unfold encode_metadata_record packU32 packU8
  simp [h1, h2, h3, ht]

theorem decode_metadata_record_encode (m : Movie) (bs rest : List Nat)
    (h1 : m.tmdb_id < 4294967296) (h2 : m.imdb_num < 4294967296)
    (h3 : m.rating_x10 < 256)
    (henc : encode_metadata_record m = some bs) :
    decode_metadata_record (bs ++ rest) =
      some (⟨m.tmdb_id, m.imdb_num, m.rating_x10, (strBytes m.title).take 255⟩, rest) := by
  rw [encode_metadata_record_eq m h1 h2 h3] at henc
  cases henc
  simp only [decode_metadata_record, List.append_assoc, List.cons_append, List.nil_append,
    readU32_le32 _ _ h1, readU32_le32 _ _ h2, readU8, readBytes_append,
    Option.bind_eq_bind, Option.some_bind, Option.pure_def]

theorem decodeMetaRecords_encode (movies : List Movie)
    (hb : ∀ m ∈ movies, m.tmdb_id < 4294967296 ∧ m.imdb_num < 4294967296 ∧
      m.rating_x10 < 256) :
    ∃ body, encodeMetaRecords movies = some body ∧
      decodeMetaRecords movies.length body =
        some (movies.map fun m =>
          ⟨m.tmdb_id, m.imdb_num, m.rating_x10, (strBytes m.title).take 255⟩) := by
  induction movies with
  | nil => exact ⟨[], rfl, rfl⟩
  | cons m rest ih =>
      obtain ⟨h1, h2, h3⟩ := hb m (List.mem_cons_self m rest)
      obtain ⟨body, hbody, hdec⟩ := ih fun m' hm' => hb m' (List.mem_cons_of_mem m hm')
      refine ⟨(le32 m.tmdb_id ++ le32 m.imdb_num ++ [m.rating_x10] ++
          [((strBytes m.title).take 255).length] ++ (strBytes m.title).take 255) ++ body,
        ?_, ?_⟩
      · unfold encodeMetaRecords
        rw [encode_metadata_record_eq m h1 h2 h3, hbody]
        rfl
      · show decodeMetaRecords (rest.length + 1) (_ ++ body) = _
        unfold decodeMetaRecords
        rw [decode_metadata_record_encode m _ body h1 h2 h3
          (encode_metadata_record_eq m h1 h2 h3)]
        simp only [Option.bind_eq_bind, Option.some_bind, hdec, Option.pure_def,
          List.map_cons]

/-- C2: the metadata stream is a little-endian count followed by the
fixed-layout records, and decoding recovers each identifier,
cross-reference, score, and the title bytes truncated to 255 (unchanged
when already at most 255 bytes). -/
theorem metadata_round_trip (movies : List Movie)
    (hn : movies.length < 4294967296)
    (hb : ∀ m ∈ movies, m.tmdb_id < 4294967296 ∧ m.imdb_num < 4294967296 ∧
      m.rating_x10 < 256) :
    ∃ bs, write_metadata_binary movies = some bs ∧
      decode_metadata bs = some (movies.map fun m =>
        ⟨m.tmdb_id, m.imdb_num, m.rating_x10, (strBytes m.title).take 255⟩) ∧
      ∀ m ∈ movies, (strBytes m.title).length ≤ 255 →
        (strBytes m.title).take 255 = strBytes m.title := by
  obtain ⟨body, hbody, hdec⟩ := decodeMetaRecords_encode movies hb
  refine ⟨le32 movies.length ++ body, ?_, ?_, ?_⟩
  · unfold write_metadata_binary packU32
    rw [if_pos hn, hbody]
    rfl
  · unfold decode_metadata
    rw [readU32_le32 _ _ hn]
    simp only [Option.bind_eq_bind, Option.some_bind]
    exact hdec
  · intro m _ hle
    exact List.take_of_length_le hle

theorem encode_embedding_record_eq (m : Movie) (qrow : List Nat)
    (h1 : m.tmdb_id < 4294967296)
    (hp : (strBytes m.poster_path).length ≤ 255) :
    encode_embedding_record m qrow =
      some (le32 m.tmdb_id ++ [(strBytes m.poster_path).length] ++
        strBytes m.poster_path ++ qrow) := by
  simp only [encode_embedding_record, packU32, packU8]
  rw [if_pos h1, if_pos (show (strBytes m.poster_path).length < 256 by omega)]
  rfl

/-- C3 (amended): for a record whose poster reference is at most 255
UTF-8 bytes, encoding then decoding an embedding record yields the
original identifier, the poster reference unchanged, and exactly the K
quantized bytes of its row. -/
theorem embedding_record_round_trip (m : Movie) (qrow : List Nat) (K : Nat)
    (rest : List Nat)
    (h1 : m.tmdb_id < 4294967296)
    (hp : (strBytes m.poster_path).length ≤ 255)
    (hK : qrow.length = K) :
    ∃ bs, encode_embedding_record m qrow = some bs ∧
      decode_embedding_record K (bs ++ rest) =
        some (⟨m.tmdb_id, strBytes m.poster_path, qrow⟩, rest) := by
  refine ⟨_, encode_embedding_record_eq m qrow h1 hp, ?_⟩
  subst hK
  simp only [decode_embedding_record, List.append_assoc, List.cons_append,
    List.nil_append, readU32_le32 _ _ h1, readU8, readBytes_append,
    Option.bind_eq_bind, Option.some_bind, Option.pure_def]

theorem replicate_a_utf8_length (n : Nat) :
    ((List.replicate n 'a').flatMap utf8Bytes).length = n := by
  induction n with
  | zero => rfl
  | succ k ih =>
      rw [List.replicate_succ, List.flatMap_cons, List.length_append, ih]
      have ha : (utf8Bytes 'a').length = 1 := rfl
      omega

/-- An over-long poster reference makes the encoder fail: the one-byte
length pack raises instead of truncating. -/
theorem encode_embedding_record_overflow (m : Movie) (qrow : List Nat)
    (hp : 255 < (strBytes m.poster_path).length) :
    encode_embedding_record m qrow = none := by
  simp only [encode_embedding_record, packU32, packU8]
  rw [if_neg (show ¬ (strBytes m.poster_path).length < 256 by omega)]
  by_cases hid : m.tmdb_id < 4294967296
  · rw [if_pos hid]
    rfl
  · rw [if_neg hid]
    rfl

/-- C3 counterexample: a 256-byte poster reference is not truncated —
the one-byte length pack fails, so encoding yields no record at all
rather than a record with a truncated poster. -/
theorem embedding_record_no_truncation_cex :
    (strBytes (String.mk (List.replicate 256 'a'))).length = 256 ∧
    encode_embedding_record
      ⟨1, "t", String.mk (List.replicate 256 'a'), "t", "h", 0, 0⟩ [0] = none := by
  have h256 : (strBytes (String.mk (List.replicate 256 'a'))).length = 256 :=
    replicate_a_utf8_length 256
  refine ⟨h256, encode_embedding_record_overflow _ _ ?_⟩
  show 255 < ((List.replicate 256 'a').flatMap utf8Bytes).length
  rw [replicate_a_utf8_length 256]
  omega

/-! ### Text normalizer theorems -/

/-- C9 counterexample: a pre-combined field that is present and non-empty
after trimming is not used verbatim — the stripped value is used, which
differs from the field when it carries surrounding whitespace. -/
theorem derive_text_not_verbatim_cex :
    pyStrip " x " ≠ "" ∧
    derive_text "T" "Tag" "Ov" (some " x ") ≠ " x " ∧
    derive_text "T" "Tag" "Ov" (some " x ") = "x" := by
  refine ⟨?_, ?_, ?_⟩ <;> decide

/-- C9 (amended): when the pre-combined field is present and non-empty
after trimming, the embedding-input text is that field with surrounding
whitespace stripped (verbatim exactly when it has none); otherwise it is
the non-empty fields of title, tagline, overview joined with ". " in
that order. -/
theorem derive_text_spec (title tagline overview : String) (tto : Option String) :
    (∀ t, tto = some t → pyStrip t ≠ "" →
      derive_text title tagline overview tto = pyStrip t) ∧
    ((tto = none ∨ ∃ t, tto = some t ∧ pyStrip t = "") →
      derive_text title tagline overview tto =
        String.intercalate ". " ([title, tagline, overview].filter fun p => p ≠ "")) := by
  constructor
  · rintro t rfl hne
    simp [derive_text, hne]
  · rintro (rfl | ⟨t, rfl, hempty⟩)
    · rfl
    · simp [derive_text, hempty]

/-! ### Concrete witnesses -/

def wMovie1 : Movie := ⟨1, "A", "p1", "t1", "h1", 5, 50⟩

def wMovie2 : Movie := ⟨2, "B", "p2", "t2", "h2", 6, 60⟩

def wCache : Cache := [(1, ("h1", [5]))]

theorem generate_embeddings_reuse_iff_witness :
    [(wMovie1, some [(5 : ℚ)]), (wMovie2, some [(2 : ℚ)])][0]? =
      some (wMovie1, some [(5 : ℚ)]) ∧
    dictGet [(1, ("h1", [(5 : ℚ)])), (2, ("h2", [(2 : ℚ)]))] wMovie2.tmdb_id =
      some (wMovie2.cache_hash, embedText (fun _ => [2]) wMovie2) := by
  have h := generate_embeddings_reuse_iff (fun _ => ([2] : Vec)) false false
    [wMovie1, wMovie2] wCache
    [(wMovie1, some [5]), (wMovie2, some [2])]
    [(1, ("h1", [5])), (2, ("h2", [2]))]
    (by decide) rfl
  refine ⟨(h 0 (by decide)).1 [5] rfl rfl, ((h 1 (by decide)).2 (Or.inr ?_)).2⟩
  intro v hv
  simp [wCache, wMovie2, dictGet] at hv

theorem generate_embeddings_frame_witness :
    dictGet [(1, ("h1", [(5 : ℚ)]))] 9 = none ∧
    (dictGet [(1, ("h1", [(5 : ℚ)]))] 1).isSome = true := by
  have h := generate_embeddings_frame (fun _ => ([0] : Vec)) false true
    [wMovie1] [(1, ("h1", [5])), (9, ("zz", [7]))]
    [(wMovie1, some [5])] [(1, ("h1", [5]))] rfl
  exact ⟨((h 9).1 (by decide)).2 rfl,
    (h 1).2 rfl ⟨wMovie1, by decide, rfl⟩ rfl⟩

theorem metadata_round_trip_witness :
    ∃ bs, write_metadata_binary [wMovie1] = some bs ∧
      decode_metadata bs = some ([wMovie1].map fun m =>
        ⟨m.tmdb_id, m.imdb_num, m.rating_x10, (strBytes m.title).take 255⟩) ∧
      ∀ m ∈ [wMovie1], (strBytes m.title).length ≤ 255 →
        (strBytes m.title).take 255 = strBytes m.title :=
  metadata_round_trip [wMovie1] (by decide) (by decide)

theorem embedding_record_round_trip_witness :
    ∃ bs, encode_embedding_record wMovie1 [7, 8] = some bs ∧
      decode_embedding_record 2 (bs ++ []) =
        some (⟨wMovie1.tmdb_id, strBytes wMovie1.poster_path, [7, 8]⟩, []) :=
  embedding_record_round_trip wMovie1 [7, 8] 2 [] (by decide) (by decide) rfl

theorem load_cache_scope_mismatch_witness :
    load_embedding_cache "s2" (some ⟨some ["s1"], none, []⟩) = [] ∧
    load_embedding_cache "s2" none = [] :=
  load_cache_scope_mismatch "s2" ⟨some ["s1"], none, []⟩ (by decide) (by decide)

theorem backend_failure_witness :
    run_pipeline (fun _ => .error "boom") (fun _ => []) false false "s"
      [wMovie2] ⟨none, none, none⟩ = (⟨none, none, none⟩, some "boom") :=
  backend_failure_leaves_disk_unchanged (fun _ => .error "boom") (fun _ => [])
    false false "s" [wMovie2] ⟨none, none, none⟩ "boom" rfl

theorem quantize_constant_column_witness :
    ∃ b, ∀ qr ∈ quantize [[(3 : ℚ)], [3]], qr.getD 0 0 = b :=
  quantize_constant_column [[3], [3]] 0 3 (by decide) (by decide) (by decide)

def wLegacyFile : CacheFile := ⟨none, none, [("5", [1])]⟩

def wLegacyMovie : Movie := ⟨5, "T", "p", "t", hash_text "t" "s", 0, 0⟩

theorem legacy_cache_never_reused_witness :
    (hash_text "t" "s").length = 64 ∧
    (∀ id0 k v, dictGet (load_embedding_cache "s" (some wLegacyFile)) id0 =
        some (k, v) → k = "") ∧
    reuseHit false (load_embedding_cache "s" (some wLegacyFile)) wLegacyMovie = none :=
  legacy_cache_never_reused "s" wLegacyFile wLegacyMovie rfl rfl

theorem derive_text_spec_witness :
    derive_text "T" "" "" (some " x ") = pyStrip " x " ∧
    derive_text "T" "Tag" "" none =
      String.intercalate ". " (["T", "Tag", ""].filter fun p => p ≠ "") :=
  ⟨(derive_text_spec "T" "" "" (some " x ")).1 " x " rfl (by decide),
   (derive_text_spec "T" "Tag" "" none).2 (Or.inl rfl)⟩
